import Mathlib

/-!
Verification of the SearchInProject plugin core: the search-engine output
parser and adjacency filter (`searchengines/base.py`), the engine `run`
classification, the common-path resolver and path shortening, the
definition-query planner, the consolidated results formatter, and the
relative-result navigation step (`search_in_project.py`).

Strings are modelled as `List Char` (Python `str`); Python byte streams are
modelled after decoding, so `_sanitize_output`'s UTF-8 `decode` step is the
identity here and only its `strip` is modelled.  Python `\d`, `isalpha`,
`upper` and `int` are modelled with their ASCII semantics.
-/

set_option linter.unusedVariables false

/-- Python whitespace strip on both ends (`str.strip()`). -/
def pyStrip (l : List Char) : List Char :=
  ((l.dropWhile Char.isWhitespace).reverse.dropWhile Char.isWhitespace).reverse

/-- Python `str.split(sep)` with no maxsplit: splits at every occurrence of
`sep`; the empty string yields `[""]`. -/
def pySplit (sep : Char) : List Char → List (List Char)
  | [] => [[]]
  | c :: cs =>
    if c = sep then [] :: pySplit sep cs
    else
      match pySplit sep cs with
      | [] => [[c]]
      | h :: t => (c :: h) :: t

/-- Python `str.split(sep, maxsplit)`: at most `maxsplit` splits, scanning
left to right. -/
def pySplitMax (sep : Char) : Nat → List Char → List (List Char)
  | _, [] => [[]]
  | 0, l => [l]
  | m + 1, c :: cs =>
    if c = sep then [] :: pySplitMax sep m cs
    else
      match pySplitMax sep (m + 1) cs with
      | [] => [[c]]
      | h :: t => (c :: h) :: t

/-- `sep.join(parts)` (Python `":".join`, `"/".join`, `"\n".join`). -/
def pyJoin (sep : List Char) : List (List Char) → List Char
  | [] => []
  | [x] => x
  | x :: y :: t => x ++ sep ++ pyJoin sep (y :: t)

/-- Python `int(s)` on a decimal string: optional surrounding whitespace,
optional sign, then one or more ASCII digits; `none` models `ValueError`.
(Underscored and non-ASCII digit forms accepted by CPython are not needed by
any input considered here.) -/
def pyInt (l : List Char) : Option Int :=
  match pyStrip l with
  | [] => none
  | '+' :: ds =>
    if ds ≠ [] ∧ ds.all Char.isDigit then
      some (Int.ofNat (ds.foldl (fun a c => a * 10 + (c.toNat - 48)) 0))
    else none
  | '-' :: ds =>
    if ds ≠ [] ∧ ds.all Char.isDigit then
      some (-Int.ofNat (ds.foldl (fun a c => a * 10 + (c.toNat - 48)) 0))
    else none
  | ds =>
    if ds.all Char.isDigit then
      some (Int.ofNat (ds.foldl (fun a c => a * 10 + (c.toNat - 48)) 0))
    else none

/-- `Base.HAS_COLUMN_INFO` — whether the anchored pattern
`[^:]+:\d+:\d+:` (nonempty colon-free head, colon, digits, colon, digits,
colon) matches at the start of the line.  Since neither `[^:]` nor `\d` can
match `:`, the regex match is equivalent to this shape condition on the
first three colon-delimited fields. -/
def hasColumnInfo (l : List Char) : Bool :=
  match pySplitMax ':' 3 l with
  | [p, a, b, _] =>
    !p.isEmpty && !a.isEmpty && a.all Char.isDigit && !b.isEmpty && b.all Char.isDigit
  | _ => false

/-- `Base._sanitize_output` after decoding: `.strip()`. -/
def sanitizeOutput (l : List Char) : List Char := pyStrip l

/-- The skip test of `Base._filter_lines_without_matches`: same file name
field and this line number parses to exactly one more than the previous
line number; any parse failure (`ValueError`) means no skip.  (Fields 0 and
1 always exist on the filtered lines, which have length > 2.) -/
def adjacentSkip (last this : List (List Char)) : Bool :=
  match last, this with
  | lf :: ll :: _, tf :: tl :: _ =>
    lf == tf &&
      (match pyInt tl, pyInt ll with
       | some tn, some ln => tn == ln + 1
       | _, _ => false)
  | _, _ => false

/-- The adjacency loop: each element is compared against its immediate raw
predecessor in the filtered list (`r[i - 1]`), kept unless the skip test
fires. -/
def dedupRest (prev : List (List Char)) : List (List (List Char)) → List (List (List Char))
  | [] => []
  | y :: ys => (if adjacentSkip prev y then [] else [y]) ++ dedupRest y ys

/-- The `keep_adjacents = False` branch of
`Base._filter_lines_without_matches`: always yield the first element, then
run the adjacency loop. -/
def filterAdjacent : List (List (List Char)) → List (List (List Char))
  | [] => []
  | x :: xs => x :: dedupRest x xs

/-- `Base._filter_lines_without_matches`: drop lines with at most 2 fields;
with `keep_adjacents = False` additionally run the adjacency merge. -/
def filterLinesWithoutMatches (lineParts : List (List (List Char))) (keepAdjacents : Bool) :
    List (List (List Char)) :=
  let r := lineParts.filter (fun line => line.length > 2)
  if keepAdjacents then r else filterAdjacent r

/-- `Base._parse_output`: split into lines, split each line on `:` into 4
fields when column info is present else 3, filter, then join all but the
last field with `:` as the locator and strip the last field as the text. -/
def parseOutput (output : List Char) (keepAdjacents : Bool) :
    List (List Char × List Char) :=
  let lines := pySplit '\n' output
  let lineParts := lines.map fun line =>
    if hasColumnInfo line then pySplitMax ':' 3 line else pySplitMax ':' 2 line
  let kept := filterLinesWithoutMatches lineParts keepAdjacents
  kept.map fun line => (pyJoin [':'] line.dropLast, pyStrip (line.getLastD []))

/-- `Base._is_search_error`: the body evaluates `returncode != 0` but has no
`return` statement, so the Python function always returns `None`. -/
def isSearchError (returncode : Int) (output error : List Char) : Option Bool :=
  none

/-- Python truthiness of an `Option Bool` (`None` is falsy). -/
def pyTruthy : Option Bool → Bool
  | none => false
  | some b => b

/-- `Base.run` after a successful process launch, as a function of the
child's exit code and decoded standard streams: raise (`Except.error`) with
the sanitized error stream when `_is_search_error` is truthy, else parse the
sanitized standard output. -/
def run (returncode : Int) (output error : List Char) (keepAdjacents : Bool) :
    Except (List Char) (List (List Char × List Char)) :=
  if pyTruthy (isSearchError returncode output error) then
    Except.error (sanitizeOutput error)
  else
    Except.ok (parseOutput (sanitizeOutput output) keepAdjacents)

/-- One step of Python `s.replace(pat, '')` for a nonempty `pat`, scanning
left to right without overlap.  The counter argument skips the remaining
characters of a pattern occurrence that has already been matched. -/
def replAux (pat : List Char) : Nat → List Char → List Char
  | _, [] => []
  | skip + 1, _ :: cs => replAux pat skip cs
  | 0, c :: cs =>
    if pat.isPrefixOf (c :: cs) then replAux pat (pat.length - 1) cs
    else c :: replAux pat 0 cs

/-- Python `s.replace(pat, '')` for a nonempty pattern: remove every
leftmost non-overlapping occurrence of `pat` from `s`. -/
def pyRemoveAll (pat s : List Char) : List Char := replAux pat 0 s

/-- `pat` occurs somewhere in `s` as a contiguous substring. -/
def containsSub (pat : List Char) : List Char → Bool
  | [] => pat.isEmpty
  | c :: cs => pat.isPrefixOf (c :: cs) || containsSub pat cs

/-- The loop of `SearchInProjectCommand.find_common_path`, structurally
recursive on the first root's segment list: while no root is exhausted, pop
the leading segment of every root; if the popped segments form a one-element
set, accumulate that segment and continue, else stop. -/
def commonSegAux : List (List Char) → List (List (List Char)) → List (List Char)
  | [], _ => []
  | s :: srest, others =>
    if others.any List.isEmpty then []
    else
      let heads := s :: others.map List.headI
      if heads.dedup.length = 1 then s :: commonSegAux srest (others.map List.tail)
      else []

/-- The accumulated `common_path` segment list of `find_common_path`. -/
def commonSegments : List (List (List Char)) → List (List Char)
  | [] => []
  | p :: ps => commonSegAux p ps

/-- `SearchInProjectCommand.find_common_path`: strip double quotes from each
root, split each on `/`, take the common leading segments, and return them
joined with `/`, with a trailing `/`, wrapped in double quotes. -/
def findCommonPath (paths : List (List Char)) : List Char :=
  let stripped := paths.map (pyRemoveAll [ '\"' ])
  let segss := stripped.map (pySplit '/')
  [ '\"' ] ++ pyJoin [ '/' ] (commonSegments segss) ++ [ '/', '\"' ]

/-- The result-locator shortening of `SearchInProjectCommand.perform_search`
(line 93): `result[0].replace(self.common_path.replace('\"', ''), '')`. -/
def shorten (commonPath loc : List Char) : List Char :=
  pyRemoveAll (pyRemoveAll [ '\"' ] commonPath) loc

/-- ASCII apostrophe, for building the category labels of
`FindDefinitionInProjectCommand.run_engine`. -/
def apos : Char := Char.ofNat 39

/-- `text_raw[0].isalpha() and text_raw[0].upper() == text_raw[0]` of
`FindDefinitionInProjectCommand.run_engine` (ASCII semantics; the stripped
symbol is assumed nonempty, as the Python indexing requires). -/
def isUppercasey (t : List Char) : Bool :=
  t.headI.isAlpha && (t.headI.toUpper == t.headI)

/-- Regex text `'^module +({})\s'.format(t)`. -/
def moduleText (t : List Char) : List Char :=
  "^module +(".data ++ t ++ ")\\s".data

/-- Regex text `'^(data|newtype|type)\s+{}(\s+[a-z]+)*\s+(=|where)\s'`. -/
def dataText (t : List Char) : List Char :=
  "^(data|newtype|type)\\s+".data ++ t ++ "(\\s+[a-z]+)*\\s+(=|where)\\s".data

/-- Regex text `'^class\s+([a-zA-Z\s.\(\),]+=>\s+)?{}(\s+[a-z]+)*\s+where\s'`. -/
def classText (t : List Char) : List Char :=
  "^class\\s+([a-zA-Z\\s.\\(\\),]+=>\\s+)?".data ++ t ++ "(\\s+[a-z]+)*\\s+where\\s".data

/-- Regex text `'(data|newtype) .+\s* =\s* {}\s'`. -/
def firstConstructorText (t : List Char) : List Char :=
  "(data|newtype) .+\\s* =\\s* ".data ++ t ++ "\\s".data

/-- Regex text `'\|\s* {}\s'`. -/
def laterConstructorText (t : List Char) : List Char :=
  "\\|\\s* ".data ++ t ++ "\\s".data

/-- Regex text `'({})|({})'` over the two constructor forms. -/
def constructorText (t : List Char) : List Char :=
  "(".data ++ firstConstructorText t ++ ")|(".data ++ laterConstructorText t ++ ")".data

/-- Regex text `'^ *({})\s+::\s+.'`. -/
def valueAnnotText (t : List Char) : List Char :=
  "^ *(".data ++ t ++ ")\\s+::\\s+.".data

/-- Regex text `'^ *({})\s+[^=$]*\s=\s'`. -/
def valueDefnText (t : List Char) : List Char :=
  "^ *(".data ++ t ++ ")\\s+[^=$]*\\s=\\s".data

/-- Regex text `' +[{,] +({})\s+::\s+'` (the Python template writes the
literal opening brace as `{{`). -/
def recordGetterText (t : List Char) : List Char :=
  " +[\x7b,] +(".data ++ t ++ ")\\s+::\\s+".data

/-- The `OrderedDict` of labeled patterns built by
`FindDefinitionInProjectCommand.run_engine`, as an ordered association
list, for the stripped symbol `t`. -/
def definitionPatterns (t : List Char) : List (List Char × List Char) :=
  if isUppercasey t then
    [("Module".data, moduleText t),
     ("Type def".data ++ [apos] ++ "n".data, dataText t),
     ("Class def\n".data, classText t),
     ("Constructor".data, constructorText t)]
  else
    [("Value type".data, valueAnnotText t),
     ("Value def".data ++ [apos] ++ "n".data, valueDefnText t),
     ("Record getter".data, recordGetterText t)]

/-- `FindDefinitionInProjectCommand.run_engine`, abstracted over the engine:
`engine pattern keepAdjacents` stands for
`self.engine.run(pattern, folders, keep_adjacents)` for the fixed folders.
Strips the symbol, builds the labeled patterns, runs each in order with
`keep_adjacents=False`, prefixes each result text with `'{name}: '`, and
extends the accumulated result list. -/
def findDefinitionRunEngine
    (engine : List Char → Bool → List (List Char × List Char))
    (textRaw : List Char) : List (List Char × List Char) :=
  let t := pyStrip textRaw
  (definitionPatterns t).foldl
    (fun results np =>
      results ++ (engine np.2 false).map fun pc => (pc.1, np.1 ++ ": ".data ++ pc.2))
    []

/-- The tuple unpacking `filename, location = result[0].split(':', 1)` of
`SearchInProjectResultsCommand.format_results`; `none` models the
`ValueError` raised when the locator holds no colon. -/
def splitLocator (loc : List Char) : Option (List Char × List Char) :=
  match pySplitMax ':' 1 loc with
  | [f, l] => some (f, l)
  | _ => none

/-- Append one `(location, text)` entry under `filename` in an ordered
association list, keeping first-seen key order (the behavior of the
insertion-ordered `defaultdict(list)`). -/
def insertGroup (groups : List (List Char × List (List Char × List Char)))
    (f : List Char) (lt : List Char × List Char) :
    List (List Char × List (List Char × List Char)) :=
  match groups with
  | [] => [(f, [lt])]
  | (g, ls) :: rest =>
    if g == f then (g, ls ++ [lt]) :: rest else (g, ls) :: insertGroup rest f lt

/-- The grouping loop of `SearchInProjectResultsCommand.format_results`:
group results by the part of the locator before its first colon, in
first-seen order; `none` models the unpacking `ValueError` on a locator
without a colon. -/
def groupResults (results : List (List Char × List Char)) :
    Option (List (List Char × List (List Char × List Char))) :=
  results.foldlM
    (fun acc r => (splitLocator r.1).map fun fl => insertGroup acc fl.1 (fl.2, r.2))
    []

/-- `SearchInProjectResultsCommand.format_result`: one per-file block. -/
def formatResult (commonPath filename : List Char)
    (lines : List (List Char × List Char)) : List Char :=
  let linesText := pyJoin "\n".data (lines.map fun lt => "  ".data ++ lt.1 ++ ": ".data ++ lt.2)
  commonPath ++ filename ++ ":\n".data ++ linesText ++ "\n".data

/-- `SearchInProjectResultsCommand.format_results`: the header followed by
the newline-joined per-file blocks; `none` models the `ValueError` escaping
from the grouping loop. -/
def formatResults (commonPath : List Char) (results : List (List Char × List Char))
    (query : List Char) : Option (List Char) :=
  (groupResults results).map fun groups =>
    let lineCount := results.length
    let fileCount := groups.length
    let fileResults := groups.map fun g => formatResult commonPath g.1 g.2
    "Search In Project results for \"".data ++ query ++ "\" (".data ++
      (Nat.repr lineCount).data ++ " lines in ".data ++ (Nat.repr fileCount).data ++
      " files):\n\n".data ++ pyJoin "\n".data fileResults

/-- The `SearchInProjectCommand` state touched by relative navigation. -/
structure SessionState where
  lastSearchString : List Char
  lastSelectedResultIndex : Int
  resultsLength : Nat
deriving DecidableEq

/-- `SearchInProjectCommand.goto_relative_result`: when a last search string
is set, move to `last_selected_result_index + offset` if that target lies in
`[0, len(results) - 2]` (the range excluding the trailing list-in-view
entry) and invoke `goto_result` on it; otherwise change nothing.  The second
component is the index passed to `goto_result`, if any. -/
def gotoRelativeResult (st : SessionState) (offset : Int) : SessionState × Option Int :=
  if st.lastSearchString.isEmpty then (st, none)
  else
    let newIndex := st.lastSelectedResultIndex + offset
    if 0 ≤ newIndex ∧ newIndex < (st.resultsLength : Int) - 1 then
      ({ st with lastSelectedResultIndex := newIndex }, some newIndex)
    else (st, none)

/-- Modelled from the claim wording: the skip test phrased on optional
fields — the file paths exist and are equal, and both line-number fields
parse numerically with this line number exactly one greater. -/
def specSkip (prev cur : List (List Char)) : Bool :=
  match prev.head?, cur.head?, prev[1]?.bind pyInt, cur[1]?.bind pyInt with
  | some pf, some cf, some pn, some cn => pf == cf && cn == pn + 1
  | _, _, _, _ => false

/-- Modelled from the claim wording of C2: compare each line against the
immediately preceding KEPT line, skipping it when the skip test fires
against that kept line. -/
def specKeptAux (lastKept : List (List Char)) :
    List (List (List Char)) → List (List (List Char))
  | [] => []
  | y :: ys =>
    if specSkip lastKept y then specKeptAux lastKept ys else y :: specKeptAux y ys

/-- Modelled from the claim wording of C2: the deduplication filter with
the comparison made against the previous kept line. -/
def specFilterKept (lineParts : List (List (List Char))) : List (List (List Char)) :=
  match lineParts.filter (fun line => line.length > 2) with
  | [] => []
  | x :: xs => x :: specKeptAux x xs

/-- The amended C2 wording: positional characterization — keep the first
line; keep a later line exactly when the skip test against its immediate
raw predecessor (in the length-filtered sequence) does not fire. -/
def specFilterRaw (lineParts : List (List (List Char))) : List (List (List Char)) :=
  match lineParts.filter (fun line => line.length > 2) with
  | [] => []
  | x :: xs =>
    x :: (((x :: xs).zip xs).filterMap fun p => if specSkip p.1 p.2 then none else some p.2)

/-- The `(filename, (location, text))` triples that the grouping loop of
`format_results` extracts, dropping nothing (defined for results whose
locators all contain a colon). -/
def specGroupPairs (results : List (List Char × List Char)) :
    List (List Char × (List Char × List Char)) :=
  results.filterMap fun r => (splitLocator r.1).map fun fl => (fl.1, (fl.2, r.2))

/-- The distinct elements of a list in first-seen order. -/
def firstSeenKeys : List (List Char) → List (List Char)
  | [] => []
  | k :: ks => k :: (firstSeenKeys ks).filter (fun x => !(x == k))

/-- Spec wording of C8: group results by file in first-seen order of the
file names, each file listing its `(location, text)` entries in result
order. -/
def specGroup (results : List (List Char × List Char)) :
    List (List Char × List (List Char × List Char)) :=
  let pairs := specGroupPairs results
  (firstSeenKeys (pairs.map Prod.fst)).map fun k =>
    (k, (pairs.filter fun p => p.1 == k).map Prod.snd)

/-! ## Helper lemmas -/

theorem specSkip_eq_adjacentSkip (p q : List (List Char))
    (hp : 2 ≤ p.length) (hq : 2 ≤ q.length) : specSkip p q = adjacentSkip p q := by
  match p, q with
  | [], _ => simp at hp
  | [a], _ => simp at hp
  | _ :: _ :: _, [] => simp at hq
  | _ :: _ :: _, [c] => simp at hq
  | a :: b :: p', c :: d :: q' =>
    cases hb : pyInt b <;> cases hd : pyInt d <;>
      simp [specSkip, adjacentSkip, hb, hd]

theorem dedupRest_eq_zip (l : List (List (List Char))) :
    ∀ prev, 2 ≤ prev.length → (∀ x ∈ l, 2 ≤ x.length) →
      dedupRest prev l = ((prev :: l).zip l).filterMap
        (fun p => if specSkip p.1 p.2 then none else some p.2) := by
  induction l with
  | nil => intro prev _ _; rfl
  | cons y ys ih =>
    intro prev hp hl
    have hy : 2 ≤ y.length := hl y (by simp)
    have hys : ∀ x ∈ ys, 2 ≤ x.length := fun x hx => hl x (by simp [hx])
    show (if adjacentSkip prev y then [] else [y]) ++ dedupRest y ys = _
    rw [List.zip_cons_cons, List.filterMap_cons, ih y hy hys,
      specSkip_eq_adjacentSkip prev y hp hy]
    cases h : adjacentSkip prev y <;> simp [h]

theorem dedupRest_sublist (l : List (List (List Char))) :
    ∀ prev, List.Sublist (dedupRest prev l) l := by
  induction l with
  | nil => intro prev; exact List.Sublist.refl []
  | cons y ys ih =>
    intro prev
    show List.Sublist ((if adjacentSkip prev y then [] else [y]) ++ dedupRest y ys) (y :: ys)
    cases h : adjacentSkip prev y
    · simpa using (ih y).cons₂ y
    · simpa using (ih y).cons y

theorem filterAdjacent_sublist (l : List (List (List Char))) :
    List.Sublist (filterAdjacent l) l := by
  cases l with
  | nil => exact List.Sublist.refl []
  | cons x xs => exact (dedupRest_sublist xs x).cons₂ x

theorem filterLines_false_length (lp : List (List (List Char))) :
    ∀ x ∈ filterLinesWithoutMatches lp false, 2 < x.length := by
  intro x hx
  have hsub : List.Sublist (filterLinesWithoutMatches lp false)
      (lp.filter (fun line => line.length > 2)) := by
    simpa [filterLinesWithoutMatches] using
      filterAdjacent_sublist (lp.filter (fun line => line.length > 2))
  have hx' : x ∈ lp.filter (fun line => line.length > 2) := hsub.subset hx
  simpa using List.of_mem_filter hx'

/-! ## Claim theorems -/

/-- Claim C1 (code bug): `Base._is_search_error` computes `returncode != 0`
but never returns it, so for exit code 2 with error stream
`"no such directory"` the `run` operation does not raise — it returns the
parsed (empty) results instead of failing with that message. -/
theorem c1_nonzero_exit_not_an_error :
    run 2 [] "no such directory".data true = Except.ok [] ∧
    isSearchError 2 [] "no such directory".data = none :=
  ⟨rfl, rfl⟩

/-- Claim C2 (counterexample): on the lines `foo:1 / foo:2 / foo:3` the
filter yields only `foo:1`, whereas comparing against the previous KEPT
result, as the claim states, would keep `foo:3` as well. -/
theorem c2_kept_comparison_refuted :
    filterLinesWithoutMatches
        [["foo".data, "1".data, "a".data],
         ["foo".data, "2".data, "b".data],
         ["foo".data, "3".data, "c".data]] false ≠
      specFilterKept
        [["foo".data, "1".data, "a".data],
         ["foo".data, "2".data, "b".data],
         ["foo".data, "3".data, "c".data]] := by decide

/-- Claim C2 (amended): with `keep_adjacents` false the first
length-filtered line is always kept, and each subsequent line is skipped
exactly when the skip test fires against its immediate RAW predecessor in
the length-filtered sequence (same file path, numeric line number exactly
one greater; non-numeric or missing line numbers mean the line is kept). -/
theorem c2_dedup_compares_raw_predecessor (lp : List (List (List Char))) :
    filterLinesWithoutMatches lp false = specFilterRaw lp := by
  unfold filterLinesWithoutMatches specFilterRaw
  cases hr : lp.filter (fun line => line.length > 2) with
  | nil => rfl
  | cons x xs =>
    have hmem : ∀ y ∈ x :: xs, 2 < y.length := by
      intro y hy
      rw [← hr] at hy
      simpa using List.of_mem_filter hy
    have hx : 2 ≤ x.length := le_of_lt (hmem x (by simp))
    have hxs : ∀ y ∈ xs, 2 ≤ y.length := fun y hy => le_of_lt (hmem y (by simp [hy]))
    show filterAdjacent (x :: xs) = _
    show x :: dedupRest x xs = _
    rw [dedupRest_eq_zip xs x hx hxs]

/-- Claim C3 (counterexample): on `foo:1 / foo:2 / foo:2` one pass yields
`foo:1, foo:2`, and a second pass merges further, yielding `foo:1` — the
deduplication filter is not idempotent. -/
theorem c3_idempotence_refuted :
    filterLinesWithoutMatches
        (filterLinesWithoutMatches
          [["foo".data, "1".data, "a".data],
           ["foo".data, "2".data, "b".data],
           ["foo".data, "2".data, "c".data]] false) false ≠
      filterLinesWithoutMatches
        [["foo".data, "1".data, "a".data],
         ["foo".data, "2".data, "b".data],
         ["foo".data, "2".data, "c".data]] false := by decide

/-- Claim C3 (amended): a second pass of the `keep_adjacents = false`
filter over its own output yields a sublist of that output — it may merge
further entries but never adds, duplicates or reorders; exact idempotence
does not hold. -/
theorem c3_second_pass_sublist (lp : List (List (List Char))) :
    List.Sublist (filterLinesWithoutMatches (filterLinesWithoutMatches lp false) false)
      (filterLinesWithoutMatches lp false) := by
  have hself : (filterLinesWithoutMatches lp false).filter
      (fun line => line.length > 2) = filterLinesWithoutMatches lp false := by
    rw [List.filter_eq_self]
    intro a ha
    simpa using filterLines_false_length lp a ha
  have h2 : filterLinesWithoutMatches (filterLinesWithoutMatches lp false) false
      = filterAdjacent (filterLinesWithoutMatches lp false) := by
    show filterAdjacent (List.filter (fun line => line.length > 2)
      (filterLinesWithoutMatches lp false)) = _
    rw [hself]
  rw [h2]
  exact filterAdjacent_sublist _

theorem pySplitMax_of_not_mem (sep : Char) (m : Nat) (l : List Char)
    (h : ∀ c ∈ l, c ≠ sep) : pySplitMax sep m l = [l] := by
  induction l generalizing m with
  | nil => cases m <;> rfl
  | cons c cs ih =>
    cases m with
    | zero => rfl
    | succ m' =>
      have hc : c ≠ sep := h c (by simp)
      have hcs : ∀ x ∈ cs, x ≠ sep := fun x hx => h x (by simp [hx])
      show (if c = sep then _ else _) = _
      rw [if_neg hc, ih (m' + 1) hcs]

theorem splitLocator_eq_none (loc : List Char) (h : (':' ∈ loc) → False) :
    splitLocator loc = none := by
  unfold splitLocator
  rw [pySplitMax_of_not_mem ':' 1 loc (fun c hc => fun he => h (he ▸ hc))]

theorem foldlM_group_none (results : List (List Char × List Char)) :
    ∀ acc, (∃ r ∈ results, splitLocator r.1 = none) →
      results.foldlM
        (fun acc r => (splitLocator r.1).map fun fl => insertGroup acc fl.1 (fl.2, r.2))
        acc = none := by
  induction results with
  | nil => intro acc h; simp at h
  | cons r rs ih =>
    intro acc h
    rw [List.foldlM_cons]
    cases hs : splitLocator r.1 with
    | none => rfl
    | some fl =>
      obtain ⟨x, hx, hxs⟩ := h
      rcases List.mem_cons.mp hx with rfl | hx'
      · rw [hs] at hxs; exact absurd hxs (by simp)
      · exact ih _ ⟨x, hx', hxs⟩

theorem groupResults_eq_none (results : List (List Char × List Char))
    (h : ∃ r ∈ results, splitLocator r.1 = none) : groupResults results = none :=
  foldlM_group_none results [] h

/-- Claim C10 (confirmed): the consolidated-listing formatter requires every
locator to contain a colon: if some result's locator has none, the split
unpacking fails (`ValueError`, modelled as `none`) and no document is
produced. -/
theorem c10_formatter_requires_colon (commonPath : List Char)
    (results : List (List Char × List Char)) (query : List Char)
    (r : List Char × List Char) (hr : r ∈ results) (hc : (':' ∈ r.1) → False) :
    formatResults commonPath results query = none := by
  unfold formatResults
  rw [groupResults_eq_none results ⟨r, hr, splitLocator_eq_none r.1 hc⟩]
  rfl

/-- Witness for C10 at a concrete bare-path locator. -/
theorem c10_witness :
    formatResults "/p/".data [("bare".data, "t".data)] "q".data = none :=
  c10_formatter_requires_colon "/p/".data [("bare".data, "t".data)] "q".data
    ("bare".data, "t".data) (by decide) (by decide)

/-- Claim C9 (counterexample): with two results (one real plus the synthetic
trailing entry), a last search string set and the selection resting on the
synthetic entry (index 1, reachable through the highlight callback), a
relative step `+1` leaves the selected index at 1, outside the claimed range
`[0, number of results - 2] = [0, 0]`. -/
theorem c9_posterior_range_refuted :
    (gotoRelativeResult ⟨"q".data, 1, 2⟩ 1).1.lastSelectedResultIndex = 1 ∧
      ¬ ((gotoRelativeResult ⟨"q".data, 1, 2⟩ 1).1.lastSelectedResultIndex
          ≤ ((2 : Nat) : Int) - 2) := by
  decide

/-- Claim C9 (amended): provided the selected index already lies in
`[0, number of results - 2]` before the step, a relative step of `±1` keeps
it in that range: a target inside the range moves the selection (and is the
index navigated to), a target outside it changes nothing, and any navigated
index lies inside the range, so relative navigation never selects the
synthetic trailing entry. -/
theorem c9_relative_step_clamps (st : SessionState) (offset : Int)
    (hoff : offset = 1 ∨ offset = -1)
    (hstr : st.lastSearchString ≠ [])
    (h0 : 0 ≤ st.lastSelectedResultIndex)
    (h1 : st.lastSelectedResultIndex ≤ (st.resultsLength : Int) - 2) :
    (0 ≤ (gotoRelativeResult st offset).1.lastSelectedResultIndex ∧
      (gotoRelativeResult st offset).1.lastSelectedResultIndex
        ≤ (st.resultsLength : Int) - 2) ∧
    ((0 ≤ st.lastSelectedResultIndex + offset ∧
        st.lastSelectedResultIndex + offset ≤ (st.resultsLength : Int) - 2) →
      (gotoRelativeResult st offset).1.lastSelectedResultIndex
          = st.lastSelectedResultIndex + offset ∧
        (gotoRelativeResult st offset).2 = some (st.lastSelectedResultIndex + offset)) ∧
    (¬ (0 ≤ st.lastSelectedResultIndex + offset ∧
        st.lastSelectedResultIndex + offset ≤ (st.resultsLength : Int) - 2) →
      (gotoRelativeResult st offset).1 = st ∧ (gotoRelativeResult st offset).2 = none) ∧
    (∀ i, (gotoRelativeResult st offset).2 = some i →
      0 ≤ i ∧ i ≤ (st.resultsLength : Int) - 2) := by
  have hne : st.lastSearchString.isEmpty = false := by
    cases hs : st.lastSearchString with
    | nil => exact absurd hs hstr
    | cons a l => rfl
  unfold gotoRelativeResult
  rw [hne]
  simp only [Bool.false_eq_true, if_false]
  by_cases hcond : 0 ≤ st.lastSelectedResultIndex + offset ∧
      st.lastSelectedResultIndex + offset < (st.resultsLength : Int) - 1
  · rw [if_pos hcond]
    dsimp only
    refine ⟨⟨hcond.1, by omega⟩, ?_, ?_, ?_⟩
    · intro h; exact ⟨rfl, rfl⟩
    · intro h; exact absurd ⟨hcond.1, by omega⟩ h
    · intro i hi
      have hii : st.lastSelectedResultIndex + offset = i := by
        simpa using hi
      omega
  · rw [if_neg hcond]
    dsimp only
    refine ⟨⟨h0, h1⟩, ?_, ?_, ?_⟩
    · intro h; exact absurd ⟨h.1, by omega⟩ hcond
    · intro h; exact ⟨rfl, rfl⟩
    · intro i hi; simp at hi

/-- Witness for C9: a `+1` step from index 0 among three results lands on
index 1, inside the allowed range. -/
theorem c9_witness :
    0 ≤ (gotoRelativeResult ⟨"q".data, 0, 3⟩ 1).1.lastSelectedResultIndex ∧
      (gotoRelativeResult ⟨"q".data, 0, 3⟩ 1).1.lastSelectedResultIndex
        ≤ ((3 : Nat) : Int) - 2 :=
  (c9_relative_step_clamps ⟨"q".data, 0, 3⟩ 1 (Or.inl rfl) (by decide) (by decide)
    (by decide)).1

theorem pySplitMax_zero (sep : Char) (l : List Char) : pySplitMax sep 0 l = [l] := by
  cases l <;> rfl

theorem pySplit_of_not_mem (sep : Char) (l : List Char) (h : ∀ c ∈ l, c ≠ sep) :
    pySplit sep l = [l] := by
  induction l with
  | nil => rfl
  | cons c cs ih =>
    have hc : c ≠ sep := h c (by simp)
    have hcs : ∀ x ∈ cs, x ≠ sep := fun x hx => h x (by simp [hx])
    show (if c = sep then _ else _) = _
    rw [if_neg hc, ih hcs]

theorem pySplitMax_append (sep : Char) (m : Nat) (a rest : List Char)
    (h : ∀ c ∈ a, c ≠ sep) :
    pySplitMax sep (m + 1) (a ++ sep :: rest) = a :: pySplitMax sep m rest := by
  induction a with
  | nil =>
    show (if sep = sep then _ else _) = _
    rw [if_pos rfl]
  | cons c cs ih =>
    have hc : c ≠ sep := h c (by simp)
    have hcs : ∀ x ∈ cs, x ≠ sep := fun x hx => h x (by simp [hx])
    show (if c = sep then _ else _) = _
    rw [if_neg hc, List.append_eq, ih hcs]

theorem length_pySplit (sep : Char) (l : List Char) :
    (pySplit sep l).length = l.count sep + 1 := by
  induction l with
  | nil => simp [pySplit]
  | cons c cs ih =>
    simp only [pySplit]
    by_cases h : c = sep
    · subst h
      rw [if_pos rfl]
      simp only [List.length_cons, List.count_cons]
      simp [ih]
    · rw [if_neg h]
      cases hsp : pySplit sep cs with
      | nil => rw [hsp] at ih; simp at ih
      | cons hh tt =>
        rw [hsp] at ih
        simp only [List.length_cons] at ih ⊢
        rw [List.count_cons]
        simp [h]
        omega

theorem length_pySplitMax (sep : Char) (l : List Char) :
    ∀ m, (pySplitMax sep m l).length = min m (l.count sep) + 1 := by
  induction l with
  | nil => intro m; cases m <;> simp [pySplitMax]
  | cons c cs ih =>
    intro m
    cases m with
    | zero => simp [pySplitMax]
    | succ m' =>
      simp only [pySplitMax]
      by_cases h : c = sep
      · subst h
        rw [if_pos rfl]
        have hih := ih m'
        simp only [List.length_cons, List.count_cons] at *
        simp
        omega
      · rw [if_neg h]
        cases hsp : pySplitMax sep (m' + 1) cs with
        | nil =>
          have hih := ih (m' + 1)
          rw [hsp] at hih
          simp at hih
        | cons hh tt =>
          have hih := ih (m' + 1)
          rw [hsp] at hih
          simp only [List.length_cons, List.count_cons] at hih ⊢
          simp [h]
          omega

theorem isDigit_ne_colon {c : Char} (h : c.isDigit = true) : c ≠ ':' := by
  intro he
  subst he
  exact absurd h (by decide)

theorem isDigit_ne_newline {c : Char} (h : c.isDigit = true) : c ≠ '\n' := by
  intro he
  subst he
  exact absurd h (by decide)

/-- Claim C6 (counterexample): the empty path contains no colon, yet parsing
`":1:2:t"` does not give locator `":1:2"` with text `"t"` — the column-info
pattern requires a nonempty path, so the line is split on only two colons,
giving locator `":1"` and text `"2:t"`. -/
theorem c6_empty_path_refuted :
    parseOutput ":1:2:t".data true = [(":1".data, "2:t".data)] ∧
      [(":1".data, "2:t".data)] ≠ [(":1:2".data, "t".data)] := by
  constructor
  · decide
  · decide

/-- Claim C6 (amended): for a NONEMPTY colon-free newline-free path and
nonempty digit strings line and col, parsing the single line
`path:line:col:text` (text free of newlines) yields exactly one result with
locator `path:line:col` and the stripped text; a single line whose colon
split yields two or fewer fields parses to nothing; and empty output parses
to nothing. -/
theorem c6_single_line_parse :
    (∀ (path line col text : List Char) (ka : Bool),
      path ≠ [] → (∀ c ∈ path, c ≠ ':') → (∀ c ∈ path, c ≠ '\n') →
      line ≠ [] → line.all Char.isDigit = true →
      col ≠ [] → col.all Char.isDigit = true →
      (∀ c ∈ text, c ≠ '\n') →
      parseOutput (path ++ [':'] ++ line ++ [':'] ++ col ++ [':'] ++ text) ka
        = [(path ++ [':'] ++ line ++ [':'] ++ col, pyStrip text)]) ∧
    (∀ (s : List Char) (ka : Bool), (∀ c ∈ s, c ≠ '\n') →
      (pySplit ':' s).length ≤ 2 → parseOutput s ka = []) ∧
    (∀ ka : Bool, parseOutput [] ka = []) := by
  refine ⟨?_, ?_, ?_⟩
  · intro path line col text ka hpne hpc hpn hlne hld hcne hcd htn
    have hldig : ∀ c ∈ line, c.isDigit = true := fun c hc => by
      simpa using List.all_eq_true.mp hld c hc
    have hcdig : ∀ c ∈ col, c.isDigit = true := fun c hc => by
      simpa using List.all_eq_true.mp hcd c hc
    have hlc : ∀ c ∈ line, c ≠ ':' := fun c hc => isDigit_ne_colon (hldig c hc)
    have hcc : ∀ c ∈ col, c ≠ ':' := fun c hc => isDigit_ne_colon (hcdig c hc)
    have hassoc : path ++ [':'] ++ line ++ [':'] ++ col ++ [':'] ++ text
        = path ++ ':' :: (line ++ ':' :: (col ++ ':' :: text)) := by
      simp [List.append_assoc]
    rw [hassoc]
    have hnl : ∀ c ∈ path ++ ':' :: (line ++ ':' :: (col ++ ':' :: text)), c ≠ '\n' := by
      intro c hc
      simp only [List.mem_append, List.mem_cons] at hc
      rcases hc with hc | hc | hc
      · exact hpn c hc
      · subst hc; decide
      · rcases hc with hc | hc | hc
        · exact isDigit_ne_newline (hldig c hc)
        · subst hc; decide
        · rcases hc with hc | hc | hc
          · exact isDigit_ne_newline (hcdig c hc)
          · subst hc; decide
          · exact htn c hc
    have h3 : pySplitMax ':' 3 (path ++ ':' :: (line ++ ':' :: (col ++ ':' :: text)))
        = [path, line, col, text] := by
      rw [pySplitMax_append ':' 2 path _ hpc, pySplitMax_append ':' 1 line _ hlc,
        pySplitMax_append ':' 0 col _ hcc, pySplitMax_zero]
    have hcol : hasColumnInfo (path ++ ':' :: (line ++ ':' :: (col ++ ':' :: text))) = true := by
      unfold hasColumnInfo
      rw [h3]
      simp [List.isEmpty_iff, hpne, hlne, hcne, hld, hcd]
    unfold parseOutput
    rw [pySplit_of_not_mem '\n' _ hnl]
    simp only [List.map_cons, List.map_nil, hcol, if_true, h3]
    show List.map _ (filterLinesWithoutMatches [[path, line, col, text]] ka) = _
    have hfl : filterLinesWithoutMatches [[path, line, col, text]] ka
        = [[path, line, col, text]] := by
      cases ka <;> rfl
    rw [hfl]
    simp [pyJoin, List.append_assoc]
  · intro s ka hnl hfields
    have hcount : s.count ':' ≤ 1 := by
      have hls := length_pySplit ':' s
      omega
    have hcol : hasColumnInfo s = false := by
      unfold hasColumnInfo
      have h3len := length_pySplitMax ':' s 3
      cases h : pySplitMax ':' 3 s with
      | nil => rfl
      | cons a t =>
        cases t with
        | nil => rfl
        | cons b t2 =>
          cases t2 with
          | nil => rfl
          | cons c t3 =>
            rw [h] at h3len
            simp only [List.length_cons] at h3len
            omega
    unfold parseOutput
    rw [pySplit_of_not_mem '\n' s hnl]
    simp only [List.map_cons, List.map_nil, hcol, Bool.false_eq_true, if_false]
    have h2len := length_pySplitMax ':' s 2
    have hle : ¬ ((pySplitMax ':' 2 s).length > 2) := by omega
    show List.map _ (filterLinesWithoutMatches [pySplitMax ':' 2 s] ka) = _
    have hfl : filterLinesWithoutMatches [pySplitMax ':' 2 s] ka = [] := by
      unfold filterLinesWithoutMatches
      rw [List.filter_cons]
      simp only [decide_eq_true_eq, hle, if_false, List.filter_nil]
      cases ka <;> rfl
    rw [hfl]
    rfl
  · intro ka
    cases ka <;> rfl

/-- Witness for C6 at `src/a.hs:10:3:  hi  `. -/
theorem c6_witness :
    parseOutput ("src/a.hs".data ++ [':'] ++ "10".data ++ [':'] ++ "3".data
        ++ [':'] ++ "  hi  ".data) true
      = [("src/a.hs".data ++ [':'] ++ "10".data ++ [':'] ++ "3".data,
          pyStrip "  hi  ".data)] :=
  c6_single_line_parse.1 "src/a.hs".data "10".data "3".data "  hi  ".data true
    (by decide) (by decide) (by decide) (by decide) (by decide) (by decide)
    (by decide) (by decide)

theorem replAux_skip (pat : List Char) (l : List Char) :
    ∀ rest, replAux pat l.length (l ++ rest) = replAux pat 0 rest := by
  induction l with
  | nil => intro rest; rfl
  | cons c cs ih =>
    intro rest
    show replAux pat cs.length (cs ++ rest) = _
    exact ih rest

theorem replAux_cancel_head (pat : List Char) (hpat : pat ≠ []) (rest : List Char) :
    replAux pat 0 (pat ++ rest) = replAux pat 0 rest := by
  cases pat with
  | nil => exact absurd rfl hpat
  | cons c p' =>
    show (if (c :: p').isPrefixOf (c :: (p' ++ rest)) then
        replAux (c :: p') ((c :: p').length - 1) (p' ++ rest)
      else c :: replAux (c :: p') 0 (p' ++ rest)) = _
    rw [if_pos]
    · show replAux (c :: p') p'.length (p' ++ rest) = _
      exact replAux_skip (c :: p') p' rest
    · rw [ List.isPrefixOf_iff_prefix]
      exact List.prefix_append (c :: p') rest

theorem replAux_of_not_contains (pat : List Char) :
    ∀ l, containsSub pat l = false → replAux pat 0 l = l := by
  intro l
  induction l with
  | nil => intro h; rfl
  | cons c cs ih =>
    intro h
    have h' : (pat.isPrefixOf (c :: cs) || containsSub pat cs) = false := h
    have h1 : pat.isPrefixOf (c :: cs) = false := by
      cases hp : pat.isPrefixOf (c :: cs)
      · rfl
      · rw [hp] at h'; simp at h'
    have h2 : containsSub pat cs = false := by
      cases hp : containsSub pat cs
      · rfl
      · rw [hp] at h'; simp at h'
    show (if pat.isPrefixOf (c :: cs) then _ else c :: replAux pat 0 cs) = _
    rw [h1]
    simp only [Bool.false_eq_true, if_false]
    rw [ih h2]

theorem pyRemoveAll_singleton (a : Char) (l : List Char) :
    pyRemoveAll [a] l = l.filter (fun c => c ≠ a) := by
  induction l with
  | nil => rfl
  | cons c cs ih =>
    show (if [a].isPrefixOf (c :: cs) then replAux [a] 0 cs
        else c :: replAux [a] 0 cs) = _
    by_cases h : a = c
    · subst h
      rw [if_pos (by simp [List.isPrefixOf])]
      rw [List.filter_cons]
      simp only [decide_eq_true_eq]
      rw [if_neg (by simp)]
      exact ih
    · rw [if_neg (by simp [List.isPrefixOf, h])]
      rw [List.filter_cons]
      simp only [decide_eq_true_eq]
      rw [if_pos (Ne.symm h)]
      exact congrArg (List.cons c) ih

theorem commonPathNoQuotes_ne_nil (roots : List (List Char)) :
    pyRemoveAll [ '\"' ] (findCommonPath roots) ≠ [] := by
  rw [pyRemoveAll_singleton]
  unfold findCommonPath
  rw [List.filter_append, List.filter_append]
  intro hE
  have hlen := congrArg List.length hE
  simp [List.filter_cons] at hlen

/-- Claim C4 (counterexample): for roots `/a/b/c` and `/a/b/d` the resolver
gives common path `/a/b/`, but shortening uses replace-all, so the
root-relative path `c/a/b/x`, which contains `/a/b/` again, does not
round-trip: shortening the recombined locator gives `cx`. -/
theorem c4_roundtrip_refuted :
    pyRemoveAll [ '\"' ] (findCommonPath ["/a/b/c".data, "/a/b/d".data]) = "/a/b/".data ∧
    shorten (findCommonPath ["/a/b/c".data, "/a/b/d".data])
        ("/a/b/".data ++ "c/a/b/x".data) = "cx".data ∧
    "cx".data ≠ "c/a/b/x".data := by
  refine ⟨by decide, by decide, by decide⟩

/-- Claim C4 (amended): shortening and re-prepending the unquoted common
path round-trip exactly for every root-relative path that does not itself
contain the common path as a substring (replace-all removes every
occurrence, so paths containing the common path again do not round-trip). -/
theorem c4_shorten_roundtrip (roots : List (List Char)) (orig : List Char)
    (h : containsSub (pyRemoveAll [ '\"' ] (findCommonPath roots)) orig = false) :
    shorten (findCommonPath roots)
        (pyRemoveAll [ '\"' ] (findCommonPath roots) ++ orig) = orig := by
  unfold shorten
  show replAux (pyRemoveAll [ '\"' ] (findCommonPath roots)) 0 _ = orig
  rw [replAux_cancel_head _ (commonPathNoQuotes_ne_nil roots) orig]
  exact replAux_of_not_contains _ orig h

/-- Witness for C4 at the spec's example roots and relative path. -/
theorem c4_witness :
    shorten (findCommonPath ["/a/b/c".data, "/a/b/d".data])
        (pyRemoveAll [ '\"' ] (findCommonPath ["/a/b/c".data, "/a/b/d".data])
          ++ "c/file.txt".data)
      = "c/file.txt".data :=
  c4_shorten_roundtrip ["/a/b/c".data, "/a/b/d".data] "c/file.txt".data (by decide)

theorem pySplit_ne_nil (sep : Char) (l : List Char) : pySplit sep l ≠ [] := by
  cases l with
  | nil => simp [pySplit]
  | cons c cs =>
    by_cases h : c = sep
    · simp [pySplit, h]
    · simp only [pySplit, if_neg h]
      cases pySplit sep cs <;> simp

theorem pyJoin_cons_head (sep : List Char) (c : Char) (h : List Char)
    (t : List (List Char)) :
    pyJoin sep ((c :: h) :: t) = c :: pyJoin sep (h :: t) := by
  cases t <;> rfl

theorem pyJoin_pySplit (sep : Char) (l : List Char) :
    pyJoin [sep] (pySplit sep l) = l := by
  induction l with
  | nil => rfl
  | cons c cs ih =>
    by_cases h : c = sep
    · subst h
      show pyJoin [c] (if c = c then [] :: pySplit c cs else _) = _
      rw [if_pos rfl]
      cases hsp : pySplit c cs with
      | nil => exact absurd hsp (pySplit_ne_nil c cs)
      | cons hh tt =>
        show [] ++ [c] ++ pyJoin [c] (hh :: tt) = c :: cs
        rw [hsp] at ih
        simp [ih]
    · show pyJoin [sep] (if c = sep then _ else _) = _
      rw [if_neg h]
      cases hsp : pySplit sep cs with
      | nil => exact absurd hsp (pySplit_ne_nil sep cs)
      | cons hh tt =>
        rw [hsp] at ih
        show pyJoin [sep] ((c :: hh) :: tt) = c :: cs
        rw [pyJoin_cons_head, ih]

theorem pyJoin_append_of_ne_nil (sep : List Char) (l₁ : List Char)
    (l : List (List Char)) (y : List Char) (t : List (List Char)) :
    pyJoin sep ((l₁ :: l) ++ y :: t)
      = pyJoin sep (l₁ :: l) ++ sep ++ pyJoin sep (y :: t) := by
  induction l generalizing l₁ with
  | nil => rfl
  | cons z l' ih =>
    show l₁ ++ sep ++ pyJoin sep ((z :: l') ++ y :: t) = _
    rw [ih z]
    simp [pyJoin, List.append_assoc]

theorem dedup_len_one {l : List (List Char)} {a b : List Char}
    (h : l.dedup.length = 1) (ha : a ∈ l) (hb : b ∈ l) : a = b := by
  obtain ⟨u, hu⟩ := List.length_eq_one.mp h
  have ha' : a ∈ l.dedup := List.mem_dedup.mpr ha
  have hb' : b ∈ l.dedup := List.mem_dedup.mpr hb
  rw [hu] at ha' hb'
  simp at ha' hb'
  rw [ha', hb']

theorem dedup_len_one_of_all_eq {l : List (List Char)} {a : List Char}
    (h : ∀ x ∈ l, x = a) (hne : l ≠ []) : l.dedup.length = 1 := by
  induction l with
  | nil => exact absurd rfl hne
  | cons x xs ih =>
    cases xs with
    | nil => simp
    | cons y ys =>
      have hx : x = a := h x (by simp)
      have hy : y = a := h y (by simp)
      have hmem : x ∈ y :: ys := by
        rw [hx, ← hy]
        simp
      rw [List.dedup_cons_of_mem hmem]
      exact ih (fun z hz => h z (by simp [hz])) (by simp)

theorem commonSegAux_nil (p : List (List Char)) : commonSegAux p [] = p := by
  induction p with
  | nil => rfl
  | cons s srest ih =>
    show (if List.any [] List.isEmpty = true then _ else _) = _
    simp only [List.any_nil, Bool.false_eq_true, if_false]
    show (if ([s].dedup).length = 1 then s :: commonSegAux srest [] else []) = _
    rw [if_pos (by simp), ih]

theorem commonSegAux_extends_first (p : List (List Char)) :
    ∀ others, ∃ t, p = commonSegAux p others ++ t := by
  induction p with
  | nil => intro others; exact ⟨[], rfl⟩
  | cons s srest ih =>
    intro others
    show ∃ t, s :: srest = (if others.any List.isEmpty = true then [] else _) ++ t
    by_cases h1 : others.any List.isEmpty = true
    · rw [if_pos h1]; exact ⟨s :: srest, rfl⟩
    · rw [if_neg h1]
      by_cases h2 : ((s :: others.map List.headI).dedup).length = 1
      · rw [if_pos h2]
        obtain ⟨t, ht⟩ := ih (others.map List.tail)
        exact ⟨t, by rw [List.cons_append, ← ht]⟩
      · rw [if_neg h2]; exact ⟨s :: srest, rfl⟩

theorem commonSegAux_extends_mem (p : List (List Char)) :
    ∀ others q, q ∈ others → ∃ t, q = commonSegAux p others ++ t := by
  induction p with
  | nil => intro others q hq; exact ⟨q, rfl⟩
  | cons s srest ih =>
    intro others q hq
    show ∃ t, q = (if others.any List.isEmpty = true then [] else _) ++ t
    by_cases h1 : others.any List.isEmpty = true
    · rw [if_pos h1]; exact ⟨q, rfl⟩
    · rw [if_neg h1]
      by_cases h2 : ((s :: others.map List.headI).dedup).length = 1
      · rw [if_pos h2]
        cases hq2 : q with
        | nil =>
          rw [hq2] at hq
          exact absurd (List.any_eq_true.mpr ⟨[], hq, rfl⟩) h1
        | cons qh qt =>
          rw [hq2] at hq
          have hqh : qh = s := by
            apply dedup_len_one h2
            · exact List.mem_cons_of_mem s (List.mem_map_of_mem List.headI hq)
            · simp
          have hqt : qt ∈ others.map List.tail :=
            List.mem_map_of_mem List.tail hq
          obtain ⟨t, ht⟩ := ih (others.map List.tail) qt hqt
          refine ⟨t, ?_⟩
          rw [hqh, ht]
          rfl
      · rw [if_neg h2]; exact ⟨q, rfl⟩

theorem root_extends_common (common t : List (List Char)) (r : List Char)
    (hcne : common ≠ []) (ht : pySplit '/' r = common ++ t) :
    ∃ u, r ++ [ '/' ] = (pyJoin [ '/' ] common ++ [ '/' ]) ++ u := by
  have hjr : r = pyJoin [ '/' ] (common ++ t) := by
    have h := congrArg (pyJoin [ '/' ]) ht
    rw [pyJoin_pySplit] at h
    exact h
  cases t with
  | nil =>
    refine ⟨[], ?_⟩
    rw [hjr]
    simp
  | cons y t' =>
    cases common with
    | nil => exact absurd rfl hcne
    | cons ch ct =>
      refine ⟨pyJoin [ '/' ] (y :: t') ++ [ '/' ], ?_⟩
      rw [hjr, pyJoin_append_of_ne_nil]
      simp [List.append_assoc]

theorem pyRemoveAll_quote_wrap (mid : List Char) (hmid : ∀ c ∈ mid, c ≠ '\"') :
    pyRemoveAll [ '\"' ] ([ '\"' ] ++ mid ++ [ '/', '\"' ]) = mid ++ [ '/' ] := by
  rw [pyRemoveAll_singleton, List.filter_append, List.filter_append]
  have hm : mid.filter (fun c => c ≠ '\"') = mid :=
    List.filter_eq_self.mpr (fun c hc => by simpa using hmid c hc)
  rw [hm]
  have h1 : List.filter (fun c => c ≠ '\"') [ '\"' ] = [] := by decide
  have h2 : List.filter (fun c => c ≠ '\"') [ '/', '\"' ] = [ '/' ] := by decide
  rw [h1, h2]
  simp

/-- Claim C5 (counterexample): for the single root `/a` the resolver's
unquoted value is `/a/` — the root with a trailing separator, exactly as the
claim also asserts — and that value is NOT a string prefix of the input
root `/a`, refuting the prefix part of the claim. -/
theorem c5_root_prefix_refuted :
    pyRemoveAll [ '\"' ] (findCommonPath ["/a".data]) = "/a/".data ∧
      ("/a/".data).isPrefixOf "/a".data = false := by
  refine ⟨by decide, by decide⟩

/-- Claim C5 (amended): for a nonempty list of absolute, quote-free roots,
the resolver's unquoted value is the shared leading segments joined with
`/` plus one trailing `/`; it is a prefix of every input root EXTENDED WITH
a trailing separator (for a root equal to the common path itself, the value
is root-plus-separator, which is not a prefix of the bare root); and for a
single root it is that root plus the separator. -/
theorem c5_common_path_shape (roots : List (List Char)) (hne : roots ≠ [])
    (hq : ∀ r ∈ roots, ∀ c ∈ r, c ≠ '\"')
    (habs : ∀ r ∈ roots, ∃ t, r = '/' :: t) :
    pyRemoveAll [ '\"' ] (findCommonPath roots)
        = pyJoin [ '/' ] (commonSegments (roots.map (pySplit '/'))) ++ [ '/' ] ∧
    (∀ r ∈ roots, (pyRemoveAll [ '\"' ] (findCommonPath roots)).isPrefixOf
        (r ++ [ '/' ]) = true) ∧
    (∀ r, roots = [r] → pyRemoveAll [ '\"' ] (findCommonPath roots) = r ++ [ '/' ]) := by
  have hstrip : roots.map (pyRemoveAll [ '\"' ]) = roots := by
    have hid : ∀ r ∈ roots, pyRemoveAll [ '\"' ] r = r := by
      intro r hr
      rw [pyRemoveAll_singleton]
      exact List.filter_eq_self.mpr (fun c hc => by simpa using hq r hr c hc)
    rw [List.map_congr_left hid]
    simp
  obtain ⟨r₀, rest, rfl⟩ : ∃ a l, roots = a :: l := by
    cases roots with
    | nil => exact absurd rfl hne
    | cons a l => exact ⟨a, l, rfl⟩
  have hany : (rest.map (pySplit '/')).any List.isEmpty = false := by
    cases hA : (rest.map (pySplit '/')).any List.isEmpty with
    | false => rfl
    | true =>
      obtain ⟨q, hqm, hqe⟩ := List.any_eq_true.mp hA
      obtain ⟨r, hr, rfl⟩ := List.mem_map.mp hqm
      exact absurd (List.isEmpty_iff.mp hqe) (pySplit_ne_nil '/' r)
  obtain ⟨t₀, ht₀⟩ := habs r₀ (by simp)
  have hsplit₀ : pySplit '/' r₀ = [] :: pySplit '/' t₀ := by
    rw [ht₀]
    show (if '/' = '/' then [] :: pySplit '/' t₀ else _) = _
    rw [if_pos rfl]
  have hall : ∀ x ∈ ([] : List Char) :: ((rest.map (pySplit '/')).map List.headI),
      x = ([] : List Char) := by
    intro x hx
    rcases List.mem_cons.mp hx with rfl | hx'
    · rfl
    · obtain ⟨q, hqm, rfl⟩ := List.mem_map.mp hx'
      obtain ⟨r, hr, rfl⟩ := List.mem_map.mp hqm
      obtain ⟨tr, htr⟩ := habs r (by simp [hr])
      rw [htr]
      show (if '/' = '/' then ([] : List Char) :: pySplit '/' tr else _).headI = _
      rw [if_pos rfl]
      rfl
  have hcommon_ne : commonSegAux (pySplit '/' r₀) (rest.map (pySplit '/')) ≠ [] := by
    rw [hsplit₀]
    show (if (rest.map (pySplit '/')).any List.isEmpty = true then ([] : List (List Char))
        else if ((([] : List Char) :: (rest.map (pySplit '/')).map List.headI).dedup).length = 1
          then [] :: commonSegAux (pySplit '/' t₀) ((rest.map (pySplit '/')).map List.tail)
          else []) ≠ []
    rw [hany]
    simp only [Bool.false_eq_true, if_false]
    rw [if_pos (dedup_len_one_of_all_eq hall (by simp))]
    simp
  have hPF : ∀ r ∈ r₀ :: rest, ∃ u, r ++ [ '/' ]
      = (pyJoin [ '/' ] (commonSegAux (pySplit '/' r₀) (rest.map (pySplit '/'))) ++ [ '/' ])
        ++ u := by
    intro r hr
    have hseg : ∃ t, pySplit '/' r
        = commonSegAux (pySplit '/' r₀) (rest.map (pySplit '/')) ++ t := by
      rcases List.mem_cons.mp hr with rfl | hr'
      · exact commonSegAux_extends_first (pySplit '/' r) (rest.map (pySplit '/'))
      · exact commonSegAux_extends_mem (pySplit '/' r₀) (rest.map (pySplit '/'))
          (pySplit '/' r) (List.mem_map_of_mem (pySplit '/') hr')
    obtain ⟨t, ht⟩ := hseg
    exact root_extends_common _ t r hcommon_ne ht
  obtain ⟨u₀, hu₀⟩ := hPF r₀ (by simp)
  have hmid : ∀ c ∈ pyJoin [ '/' ]
      (commonSegAux (pySplit '/' r₀) (rest.map (pySplit '/'))), c ≠ '\"' := by
    intro c hc
    have hc2 : c ∈ r₀ ++ [ '/' ] := by
      rw [hu₀]
      simp only [List.mem_append]
      left; left; exact hc
    rcases List.mem_append.mp hc2 with hc3 | hc3
    · exact hq r₀ (by simp) c hc3
    · simp only [List.mem_singleton] at hc3
      subst hc3
      decide
  have hres : pyRemoveAll [ '\"' ] (findCommonPath (r₀ :: rest))
      = pyJoin [ '/' ] (commonSegments ((r₀ :: rest).map (pySplit '/'))) ++ [ '/' ] := by
    have hfcp : findCommonPath (r₀ :: rest)
        = [ '\"' ] ++ pyJoin [ '/' ] (commonSegments ((r₀ :: rest).map (pySplit '/')))
          ++ [ '/', '\"' ] := by
      show [ '\"' ] ++ pyJoin [ '/' ]
          (commonSegments (((r₀ :: rest).map (pyRemoveAll [ '\"' ])).map (pySplit '/')))
          ++ [ '/', '\"' ] = _
      rw [hstrip]
    rw [hfcp]
    exact pyRemoveAll_quote_wrap _ hmid
  refine ⟨hres, ?_, ?_⟩
  · intro r hr
    rw [hres, List.isPrefixOf_iff_prefix]
    obtain ⟨u, hu⟩ := hPF r hr
    exact ⟨u, hu.symm⟩
  · intro r hroots
    injection hroots with h1 h2
    subst h1
    subst h2
    rw [hres]
    show pyJoin [ '/' ] (commonSegAux (pySplit '/' r₀) []) ++ [ '/' ] = _
    rw [commonSegAux_nil, pyJoin_pySplit]

/-- Witness for C5 at roots `/a/b/c` and `/a/b/d`. -/
theorem c5_witness :
    pyRemoveAll [ '\"' ] (findCommonPath ["/a/b/c".data, "/a/b/d".data])
        = pyJoin [ '/' ]
            (commonSegments (["/a/b/c".data, "/a/b/d".data].map (pySplit '/')))
          ++ [ '/' ] :=
  (c5_common_path_shape ["/a/b/c".data, "/a/b/d".data] (by decide)
    (by decide) (by
      intro r hr
      simp only [List.mem_cons, List.mem_singleton] at hr
      rcases hr with rfl | rfl | h
      · exact ⟨"a/b/c".data, rfl⟩
      · exact ⟨"a/b/d".data, rfl⟩
      · simp at h)).1

/-- Claim C7 (confirmed): for a symbol whose stripped text is nonempty (the
Python indexing requires this), the planner classifies it as type-like
exactly when its first character is alphabetic and equal to its own
uppercasing; a type-like symbol produces the Module / Type definition /
Class definition / Constructor blocks in that order and a value-like symbol
the Value type / Value definition / Record getter blocks in that order.
Each block maps the engine's results for the category's pattern, invoked
with `keep_adjacents = false`, in the engine's order, prefixing every
result text with the category label and a colon. -/
theorem c7_definition_planner
    (engine : List Char → Bool → List (List Char × List Char))
    (textRaw : List Char) (hne : pyStrip textRaw ≠ []) :
    (isUppercasey (pyStrip textRaw) = true ↔
      ((pyStrip textRaw).headI.isAlpha = true ∧
        (pyStrip textRaw).headI.toUpper = (pyStrip textRaw).headI)) ∧
    findDefinitionRunEngine engine textRaw =
      (if isUppercasey (pyStrip textRaw) = true then
        (engine (moduleText (pyStrip textRaw)) false).map
            (fun pc => (pc.1, "Module".data ++ ": ".data ++ pc.2)) ++
          (engine (dataText (pyStrip textRaw)) false).map
            (fun pc => (pc.1, "Type def".data ++ [apos] ++ "n".data ++ ": ".data ++ pc.2)) ++
          (engine (classText (pyStrip textRaw)) false).map
            (fun pc => (pc.1, "Class def\n".data ++ ": ".data ++ pc.2)) ++
          (engine (constructorText (pyStrip textRaw)) false).map
            (fun pc => (pc.1, "Constructor".data ++ ": ".data ++ pc.2))
      else
        (engine (valueAnnotText (pyStrip textRaw)) false).map
            (fun pc => (pc.1, "Value type".data ++ ": ".data ++ pc.2)) ++
          (engine (valueDefnText (pyStrip textRaw)) false).map
            (fun pc => (pc.1, "Value def".data ++ [apos] ++ "n".data ++ ": ".data ++ pc.2)) ++
          (engine (recordGetterText (pyStrip textRaw)) false).map
            (fun pc => (pc.1, "Record getter".data ++ ": ".data ++ pc.2))) := by
  constructor
  · simp [isUppercasey, Bool.and_eq_true, beq_iff_eq]
  · unfold findDefinitionRunEngine definitionPatterns
    by_cases h : isUppercasey (pyStrip textRaw) = true
    · simp [h, List.append_assoc]
    · simp [h, List.append_assoc]

/-- Witness for C7: the classification conjunct at the stripped symbol
`Foo`, which is type-like. -/
theorem c7_witness :
    isUppercasey (pyStrip " Foo ".data) = true ↔
      ((pyStrip " Foo ".data).headI.isAlpha = true ∧
        (pyStrip " Foo ".data).headI.toUpper = (pyStrip " Foo ".data).headI) :=
  (c7_definition_planner (fun p k => ([] : List (List Char × List Char)))
    " Foo ".data (by decide)).1

theorem firstSeenKeys_mem (l : List (List Char)) (x : List Char) :
    x ∈ firstSeenKeys l ↔ x ∈ l := by
  induction l with
  | nil => simp [firstSeenKeys]
  | cons k ks ih =>
    show x ∈ k :: (firstSeenKeys ks).filter (fun y => !(y == k)) ↔ _
    simp only [List.mem_cons, List.mem_filter, ih, Bool.not_eq_eq_eq_not,
      Bool.not_true, beq_eq_false_iff_ne]
    constructor
    · rintro (rfl | ⟨hx, _⟩)
      · exact Or.inl rfl
      · exact Or.inr hx
    · rintro (rfl | hx)
      · exact Or.inl rfl
      · by_cases hxk : x = k
        · exact Or.inl hxk
        · exact Or.inr ⟨hx, hxk⟩

theorem firstSeenKeys_nodup (l : List (List Char)) : (firstSeenKeys l).Nodup := by
  induction l with
  | nil => exact List.nodup_nil
  | cons k ks ih =>
    show (k :: (firstSeenKeys ks).filter (fun y => !(y == k))).Nodup
    refine List.Nodup.cons ?_ (List.Nodup.filter _ ih)
    intro hk
    have := (List.mem_filter.mp hk).2
    simp at this

theorem firstSeenKeys_append_singleton (l : List (List Char)) (k : List Char) :
    firstSeenKeys (l ++ [k])
      = if k ∈ l then firstSeenKeys l else firstSeenKeys l ++ [k] := by
  induction l with
  | nil => simp [firstSeenKeys]
  | cons x xs ih =>
    show x :: (firstSeenKeys (xs ++ [k])).filter (fun y => !(y == x)) = _
    rw [ih]
    by_cases hk : k ∈ xs
    · rw [if_pos hk, if_pos (by simp [hk])]
      rfl
    · rw [if_neg hk]
      by_cases hkx : k = x
      · rw [if_pos (by simp [hkx])]
        rw [List.filter_append]
        have : [k].filter (fun y => !(y == x)) = [] := by simp [hkx]
        rw [this, List.append_nil]
        rfl
      · rw [if_neg (by simp [hkx, hk])]
        rw [List.filter_append]
        have : [k].filter (fun y => !(y == x)) = [k] := by simp [hkx]
        rw [this]
        rfl

theorem insertGroup_map (k : List Char) (v : List Char × List Char)
    (F : List Char → List (List Char × List Char)) :
    ∀ keys : List (List Char), keys.Nodup →
      insertGroup (keys.map (fun j => (j, F j))) k v
        = (if k ∈ keys
           then keys.map (fun j => (j, if j == k then F j ++ [v] else F j))
           else keys.map (fun j => (j, F j)) ++ [(k, [v])]) := by
  intro keys
  induction keys with
  | nil => intro _; simp [insertGroup]
  | cons j keys' ih =>
    intro hnd
    have hnd' : keys'.Nodup := hnd.of_cons
    show (if j == k then (j, F j ++ [v]) :: keys'.map (fun j => (j, F j))
        else (j, F j) :: insertGroup (keys'.map (fun j => (j, F j))) k v) = _
    by_cases hjk : j = k
    · subst hjk
      rw [if_pos (by simp)]
      have hknot : j ∉ keys' := (List.nodup_cons.mp hnd).1
      rw [if_pos (by simp)]
      rw [List.map_cons]
      rw [if_pos (by simp)]
      congr 1
      apply List.map_congr_left
      intro x hx
      have hxk : ¬ (x == j) = true := by
        simp only [beq_iff_eq]
        intro he
        exact hknot (he ▸ hx)
      rw [if_neg hxk]
    · rw [if_neg (by simp [hjk])]
      rw [ih hnd']
      by_cases hk : k ∈ keys'
      · rw [if_pos hk, if_pos (by simp [hk])]
        rw [List.map_cons]
        rw [if_neg (by simp [hjk])]
      · rw [if_neg hk, if_neg (by simp [hjk, Ne.symm, hk])]
        rw [List.map_cons]
        rfl

theorem foldl_insertGroup_eq_spec (ps : List (List Char × (List Char × List Char))) :
    ps.foldl (fun acc p => insertGroup acc p.1 p.2) []
      = (firstSeenKeys (ps.map Prod.fst)).map
          (fun k => (k, (ps.filter (fun p => p.1 == k)).map Prod.snd)) := by
  induction ps using List.reverseRecOn with
  | nil => rfl
  | append_singleton ps p ih =>
    rw [List.foldl_append, List.foldl_cons, List.foldl_nil, ih]
    rw [insertGroup_map p.1 p.2
      (fun j => (ps.filter (fun q => q.1 == j)).map Prod.snd)
      (firstSeenKeys (ps.map Prod.fst)) (firstSeenKeys_nodup _)]
    rw [List.map_append]
    simp only [List.map_cons, List.map_nil]
    rw [firstSeenKeys_append_singleton]
    by_cases hmem : p.1 ∈ ps.map Prod.fst
    · rw [if_pos ((firstSeenKeys_mem _ _).mpr hmem), if_pos hmem]
      apply List.map_congr_left
      intro j hj
      rw [List.filter_append]
      by_cases hjp : j = p.1
      · rw [if_pos (by simp [hjp])]
        have h1 : [p].filter (fun q => q.1 == j) = [p] := by simp [hjp]
        rw [h1, List.map_append]
        rfl
      · rw [if_neg (by simp [hjp])]
        have : [p].filter (fun q => q.1 == j) = [] := by
          simp [Ne.symm hjp]
        rw [this, List.append_nil]
    · rw [if_neg (fun h => hmem ((firstSeenKeys_mem _ _).mp h)), if_neg hmem]
      rw [List.map_append]
      congr 1
      · apply List.map_congr_left
        intro j hj
        have hjmem : j ∈ ps.map Prod.fst := (firstSeenKeys_mem _ _).mp hj
        have hjp : j ≠ p.1 := fun he => hmem (he ▸ hjmem)
        rw [List.filter_append]
        have : [p].filter (fun q => q.1 == j) = [] := by
          simp [Ne.symm hjp]
        rw [this, List.append_nil]
      · rw [List.map_cons, List.map_nil]
        rw [List.filter_append]
        have h1 : ps.filter (fun q => q.1 == p.1) = [] := by
          rw [List.filter_eq_nil_iff]
          intro a ha
          simp only [beq_iff_eq]
          intro he
          exact hmem (List.mem_map.mpr ⟨a, ha, he⟩)
        have h2 : [p].filter (fun q => q.1 == p.1) = [p] := by simp
        rw [h1, h2]
        rfl

theorem foldlM_group_some (results : List (List Char × List Char)) :
    ∀ acc, (∀ r ∈ results, (splitLocator r.1).isSome = true) →
      results.foldlM
        (fun acc r => (splitLocator r.1).map fun fl => insertGroup acc fl.1 (fl.2, r.2))
        acc
        = some ((specGroupPairs results).foldl (fun acc p => insertGroup acc p.1 p.2) acc) := by
  induction results with
  | nil => intro acc h; rfl
  | cons r rs ih =>
    intro acc h
    obtain ⟨fl, hfl⟩ : ∃ fl, splitLocator r.1 = some fl := by
      cases hs : splitLocator r.1 with
      | none =>
        have hr := h r (by simp)
        rw [hs] at hr
        simp at hr
      | some fl => exact ⟨fl, rfl⟩
    have hsp : specGroupPairs (r :: rs) = (fl.1, (fl.2, r.2)) :: specGroupPairs rs := by
      unfold specGroupPairs
      rw [List.filterMap_cons, hfl]
      rfl
    rw [List.foldlM_cons, hfl, hsp, List.foldl_cons]
    show rs.foldlM _ (insertGroup acc fl.1 (fl.2, r.2)) = _
    exact ih (insertGroup acc fl.1 (fl.2, r.2))
      (fun x hx => h x (List.mem_cons_of_mem r hx))

theorem groupResults_eq_some (results : List (List Char × List Char))
    (h : ∀ r ∈ results, (splitLocator r.1).isSome = true) :
    groupResults results = some (specGroup results) := by
  unfold groupResults
  rw [foldlM_group_some results [] h]
  show some _ = some ((firstSeenKeys ((specGroupPairs results).map Prod.fst)).map
    (fun k => (k, ((specGroupPairs results).filter fun p => p.1 == k).map Prod.snd)))
  rw [foldl_insertGroup_eq_spec]

/-- Claim C8 (counterexample): the formatter's header reads
`Search In Project results for ...`, not `Search results for ...` as the
claim states; on a one-result input the produced document differs from the
claimed one. -/
theorem c8_header_refuted :
    formatResults "/p/".data [("a.txt:1".data, "hi".data)] "q".data
        = some (("Search In Project results for \"q\" (1 lines in 1 files)" ++
            ":\n\n/p/a.txt:\n  1: hi\n").data) ∧
      (("Search In Project results for \"q\" (1 lines in 1 files)" ++
          ":\n\n/p/a.txt:\n  1: hi\n").data : List Char)
        ≠ ("Search results for \"q\" (1 lines in 1 files)" ++
            ":\n\n/p/a.txt:\n  1: hi\n").data := by
  refine ⟨by decide, by decide⟩

/-- Claim C8 (amended): when every result locator contains a colon, the
consolidated listing document is the header
`Search In Project results for "{query}" ({N} lines in {M} files):` and a
blank line, with `N` the total number of results and `M` the number of
distinct files, followed by one block per file in first-seen order, each
block listing that file's locations and texts in result order (blocks are
newline-joined; a locator without a colon instead aborts formatting, see
C10). -/
theorem c8_listing_format (commonPath : List Char)
    (results : List (List Char × List Char)) (query : List Char)
    (h : ∀ r ∈ results, (splitLocator r.1).isSome = true) :
    formatResults commonPath results query = some (
      "Search In Project results for \"".data ++ query ++ "\" (".data ++
        (Nat.repr results.length).data ++ " lines in ".data ++
        (Nat.repr (specGroup results).length).data ++ " files):\n\n".data ++
        pyJoin "\n".data ((specGroup results).map fun g =>
          commonPath ++ g.1 ++ ":\n".data ++
            pyJoin "\n".data (g.2.map fun lt =>
              "  ".data ++ lt.1 ++ ": ".data ++ lt.2) ++
            "\n".data)) := by
  unfold formatResults
  rw [groupResults_eq_some results h]
  rfl

/-- Witness for C8 on three results across two files. -/
theorem c8_witness :
    formatResults "/p/".data
        [("a.txt:1".data, "hi".data), ("b.txt:2:3".data, "yo".data),
          ("a.txt:9".data, "zz".data)] "q".data
      = some (
        "Search In Project results for \"".data ++ "q".data ++ "\" (".data ++
          (Nat.repr ([("a.txt:1".data, "hi".data), ("b.txt:2:3".data, "yo".data),
            ("a.txt:9".data, "zz".data)] : List (List Char × List Char)).length).data ++
          " lines in ".data ++
          (Nat.repr (specGroup [("a.txt:1".data, "hi".data), ("b.txt:2:3".data, "yo".data),
            ("a.txt:9".data, "zz".data)]).length).data ++ " files):\n\n".data ++
          pyJoin "\n".data ((specGroup [("a.txt:1".data, "hi".data),
              ("b.txt:2:3".data, "yo".data), ("a.txt:9".data, "zz".data)]).map fun g =>
            "/p/".data ++ g.1 ++ ":\n".data ++
              pyJoin "\n".data (g.2.map fun lt =>
                "  ".data ++ lt.1 ++ ": ".data ++ lt.2) ++
              "\n".data)) :=
  c8_listing_format "/p/".data
    [("a.txt:1".data, "hi".data), ("b.txt:2:3".data, "yo".data),
      ("a.txt:9".data, "zz".data)] "q".data (by decide)
